import Mathlib

/-!
Shallow embedding of the preprocessing pipeline of the recommender-systems
repository (notebook `Preprocessing.ipynb`).

The pipeline has five stages, all driven by pandas / numpy calls:

1. Compactor: stream `kcore_5.json` in chunks of `CHUNK_SIZE`, drop six
   columns from each chunk, and append each reduced chunk to
   `kcore_5_compact.csv` (guarded by `os.path.exists`).
2. UserSampler: `np.random.seed(47)` is set once; then
   `np.random.choice(unique_users.shape[0], USER_SAMPLES, replace=False)`
   draws `USER_SAMPLES` distinct integer positions into the array of
   distinct `reviewerID`s (pandas `.unique()`: first-appearance order).
3. ReviewFilter: keep the rows of the compact corpus whose `reviewerID` is
   in the cohort (`isin`), append to `kcore_5_compact_sample.csv`
   (same `os.path.exists` guard, shared with the sampler's cell).
4. MetadataJoinFilter: iterate the lines of `metadata.json`; each line is
   parsed with `ast.literal_eval` (a parse failure raises and aborts the
   loop), four keys are popped with `line.pop(key, None)`, and the record
   is buffered; exactly when the buffer length equals `CHUNK_SIZE` the
   buffer is turned into a DataFrame, filtered by
   `chunk['asin'].isin(kcore_5_compact_sample['asin'])`, projected to five
   columns, and appended to `metadata_sample.csv`.  The loop has no
   post-loop flush: a final buffer shorter than `CHUNK_SIZE` is discarded.
5. QualityFilter: `meta.dropna(axis=0, subset=('categories', 'title'))`
   then overwrite `metadata_sample.csv`.

Machine integers do not occur (identifiers are strings, the rating is a
small integer); randomness is modelled by a concrete pure generator, so
that every definition is executable.
-/

namespace Preproc

/-- A raw review record of `kcore_5.json`.  The first three fields are the
ones the pipeline keeps; the remaining six are the columns dropped by
`chunk.drop(columns=['reviewerName', 'helpful', 'reviewText', 'summary',
'unixReviewTime', 'reviewTime'])`.  Their payload type is irrelevant to
every claim, so they are plain strings. -/
structure RawReview where
  reviewerID : String
  asin : String
  overall : Nat
  reviewerName : String
  helpful : String
  reviewText : String
  summary : String
  unixReviewTime : String
  reviewTime : String
deriving DecidableEq, Repr

/-- A row of the compacted review corpus `kcore_5_compact.csv`:
`reviewerID, asin, overall`. -/
structure Review where
  reviewerID : String
  asin : String
  overall : Nat
deriving DecidableEq, Repr

/-- The column drop of the Compactor: project a raw review to the three
retained columns (`chunk.drop(columns=[...])` keeps `reviewerID`, `asin`,
`overall` in that order). -/
def projectReview (r : RawReview) : Review :=
  ⟨r.reviewerID, r.asin, r.overall⟩

/-- Split a list into consecutive chunks of size `C` (the last chunk may be
shorter), as `pd.read_json(..., chunksize=CHUNK_SIZE)` yields the file's
rows.  For `C = 0` (not a valid pandas chunksize) the result is `[]`. -/
def chunksOf (C : Nat) (l : List α) : List (List α) :=
  if _h0 : C = 0 then [] else
  match l with
  | [] => []
  | a :: rest => (a :: rest).take C :: chunksOf C ((a :: rest).drop C)
termination_by l.length
decreasing_by
  simp only [List.length_drop, List.length_cons]
  exact Nat.sub_lt (Nat.succ_pos _) (Nat.pos_of_ne_zero _h0)

/-- The Compactor's output artifact: each chunk of the raw corpus is
projected and appended (`mode='a'`) to `kcore_5_compact.csv`, so the file
holds the concatenation of the projected chunks. -/
def compactOutput (C : Nat) (raw : List RawReview) : List Review :=
  ((chunksOf C raw).map (List.map projectReview)).flatten

/-- Worker for `dedupFirst`: `seen` holds the values already emitted. -/
def dedupFirstAux (seen : List String) : List String → List String
  | [] => []
  | a :: rest =>
    if seen.contains a then dedupFirstAux seen rest
    else a :: dedupFirstAux (a :: seen) rest

/-- Distinct elements in order of first appearance, the semantics of
pandas `Series.unique()` applied to the `reviewerID` column. -/
def dedupFirst (l : List String) : List String :=
  dedupFirstAux [] l

/-- `kcore_5_compact['reviewerID'].unique()`: the distinct user ids of a
compacted corpus in first-appearance order. -/
def uniqueUsers (corpus : List Review) : List String :=
  dedupFirst (corpus.map Review.reviewerID)

/-- One step of a linear congruential generator modulo `2 ^ 32`.  This is
the executable model of NumPy's global Mersenne-Twister stream: after
`np.random.seed(47)` the stream of draws is a pure function of the seed,
which is the only property of the generator the pipeline relies on. -/
def lcg (s : Nat) : Nat :=
  (s * 1664525 + 1013904223) % 4294967296

/-- Draw up to `k` elements without replacement from `pool`: repeatedly
pick the position `s % pool.length`, emit that element and erase it,
advancing the generator state with `lcg`.  Models the selection that
`np.random.choice(n, k, replace=False)` performs on its population. -/
def drawWithoutReplacement : Nat → Nat → List Nat → List Nat
  | _, 0, _ => []
  | _, _ + 1, [] => []
  | s, k + 1, a :: pool =>
    (a :: pool).getD (s % (a :: pool).length) 0 ::
      drawWithoutReplacement (lcg s) k
        ((a :: pool).erase ((a :: pool).getD (s % (a :: pool).length) 0))

/-- `np.random.choice(n, k, replace=False)` under a generator state
`seed`: `none` models the `ValueError` NumPy raises when the requested
sample is larger than the population; otherwise `k` distinct positions
drawn from `range n`. -/
def npChoice (seed k n : Nat) : Option (List Nat) :=
  if n < k then none
  else some (drawWithoutReplacement seed k (List.range n))

/-- The cohort of the UserSampler:
`user_sample = np.random.choice(unique_users.shape[0], N, replace=False)`
followed by the fancy indexing `unique_users[user_sample]`.  `none` models
the `ValueError` on an insufficient population. -/
def userCohort (seed N : Nat) (corpus : List Review) : Option (List String) :=
  (npChoice seed N (uniqueUsers corpus).length).map
    (fun idxs => idxs.map (fun i => (uniqueUsers corpus).getD i ""))

/-- The error of the sampling stage: `np.random.choice` raises
`ValueError` when the distinct-user population is smaller than the
requested sample size, before any output is written. -/
inductive SampleError
  | insufficientPopulation
deriving DecidableEq, Repr

/-- The sampling stage of the notebook cell guarded by
`os.path.exists('dataset/kcore_5_compact_sample.csv')`: draw the cohort,
then materialise `kcore_5_compact_sample` as the rows of the compact
corpus whose `reviewerID` is in the cohort
(`kcore_5_compact['reviewerID'].isin(unique_users[user_sample])`).  On
error nothing is written: the `to_csv` call is after the draw in the same
cell, so `Except.error` carries no artifact. -/
def userSampleStage (seed N : Nat) (corpus : List Review) :
    Except SampleError (List String × List Review) :=
  match userCohort seed N corpus with
  | none => .error .insufficientPopulation
  | some cohort =>
      .ok (cohort, corpus.filter (fun r => cohort.contains r.reviewerID))

/-- A raw metadata record of `metadata.json`, as produced by
`ast.literal_eval` on one line.  `asin` is always present (the join key);
the other fields may be absent in a given record (`none`).  The last four
fields are the keys removed by `line.pop(key, None)`. -/
structure RawMeta where
  asin : String
  categories : Option String
  title : Option String
  description : Option String
  related : Option String
  imUrl : Option String
  price : Option String
  salesRank : Option String
  brand : Option String
deriving DecidableEq, Repr

/-- A row of `metadata_sample.csv`: the five columns
`asin, categories, title, description, related` kept by the projection
`chunk[['asin', 'categories', 'title', 'description', 'related']]`. -/
structure MetaRow where
  asin : String
  categories : Option String
  title : Option String
  description : Option String
  related : Option String
deriving DecidableEq, Repr

/-- Per-line key removal `[line.pop(key, None) for key in ['imUrl',
'price', 'salesRank', 'brand']]` followed by the five-column projection:
on this typed record both collapse to keeping the five retained fields in
the canonical column order. -/
def popMeta (r : RawMeta) : MetaRow :=
  ⟨r.asin, r.categories, r.title, r.description, r.related⟩

/-- One line of `metadata.json` as `ast.literal_eval` sees it: either a
well-formed literal (`ok`) or a line whose evaluation raises
(`malformed`). -/
inductive MetaLine
  | ok (r : RawMeta)
  | malformed
deriving DecidableEq, Repr

/-- The per-chunk referential filter
`chunk[chunk['asin'].isin(kcore_5_compact_sample['asin'])]`: keep the
buffered rows whose `asin` occurs among the sampled reviews' asins. -/
def flushChunk (sampleAsins : List String) (pending : List MetaRow) : List MetaRow :=
  pending.filter (fun r => sampleAsins.contains r.asin)

/-- The MetadataJoinFilter loop.  `pending` is the `data` buffer; the
first component of the result is the content appended to
`metadata_sample.csv` (the flushed chunks, in order), the second is `true`
iff the loop aborted on a malformed line (`ast.literal_eval` raising).
Exactly as in the source, a chunk is flushed only when the buffer length
equals `C`, and a trailing buffer shorter than `C` at end of file is never
flushed. -/
def metaStream (C : Nat) (sampleAsins : List String) :
    List MetaLine → List MetaRow → List MetaRow × Bool
  | [], _ => ([], false)
  | .malformed :: _, _ => ([], true)
  | .ok r :: rest, pending =>
    let pending' := pending ++ [popMeta r]
    if pending'.length = C then
      let out := metaStream C sampleAsins rest []
      (flushChunk sampleAsins pending' ++ out.1, out.2)
    else
      metaStream C sampleAsins rest pending'

/-- The content of `metadata_sample.csv` after the MetadataJoinFilter cell
runs on a fresh output path (empty initial buffer). -/
def metaOutput (C : Nat) (sampleAsins : List String) (lines : List MetaLine) :
    List MetaRow :=
  (metaStream C sampleAsins lines []).1

/-- QualityFilter: `meta.dropna(axis=0, subset=('categories', 'title'))`
keeps exactly the rows in which both `categories` and `title` are
non-null. -/
def qualityFilter (m : List MetaRow) : List MetaRow :=
  m.filter (fun r => r.categories.isSome && r.title.isSome)

/-- The Compactor cell with its `if not os.path.exists(...)` guard: when
the output artifact already exists the stage body does not run and the
artifact keeps its content. -/
def compactorRun (existing : Option (List Review)) (C : Nat)
    (raw : List RawReview) : List Review :=
  match existing with
  | some a => a
  | none => compactOutput C raw

/-- The sampling cell with its `if not os.path.exists(...)` guard: when
`kcore_5_compact_sample.csv` exists, neither the draw nor the write
happens and the artifact keeps its content. -/
def sampleRun (existing : Option (List Review)) (seed N : Nat)
    (corpus : List Review) : Except SampleError (List Review) :=
  match existing with
  | some a => .ok a
  | none => (userSampleStage seed N corpus).map Prod.snd

/-- The MetadataJoinFilter cell with its `if not os.path.exists(...)`
guard. -/
def metaRun (existing : Option (List MetaRow)) (C : Nat)
    (sampleAsins : List String) (lines : List MetaLine) : List MetaRow :=
  match existing with
  | some a => a
  | none => metaOutput C sampleAsins lines

/-- A dynamic field value in the dict/DataFrame view of a record: either a
string payload or the missing value `NaN` pandas fills in for an absent
field. -/
inductive PVal
  | s (v : String)
  | nan
deriving DecidableEq, Repr

/-- The dict view of a parsed metadata line: a finite key-to-value map,
as `ast.literal_eval` returns it.  Used where the claims are about field
presence and absence, which the fixed-schema records above cannot
express. -/
abbrev DynRec := List (String × PVal)

/-- `dict.pop(key, None)` as used in `line.pop(key, None)`: remove the
key if present; a missing key is no error. -/
def recPop (k : String) (r : DynRec) : DynRec :=
  r.filter (fun p => decide (p.1 ≠ k))

/-- Whether the dict has a key. -/
def recHasKey (r : DynRec) (k : String) : Bool :=
  r.any (fun p => p.1 == k)

/-- Reading a column value out of one record when the DataFrame is built
from a list of dicts: a record without the key contributes `NaN` to that
column. -/
def recGet (r : DynRec) (k : String) : PVal :=
  match r.find? (fun p => p.1 == k) with
  | some p => p.2
  | none => .nan

/-- Column selection `df[cols]` on a DataFrame built with
`pd.DataFrame.from_dict(data, orient='columns')` from a list of dicts: the
frame's columns are the union of the records' keys; selecting a column
outside that union raises `KeyError`, modelled as `none`; otherwise every
record is reindexed to exactly `cols` in order, absent per-record fields
becoming `NaN`. -/
def chunkSelect (cols : List String) (chunk : List DynRec) : Option (List DynRec) :=
  if cols.all (fun c => chunk.any (fun r => recHasKey r c)) then
    some (chunk.map (fun r => cols.map (fun c => (c, recGet r c))))
  else
    none

/-! Helper lemmas. -/

theorem contains_iff_mem (l : List String) (a : String) :
    l.contains a = true ↔ a ∈ l :=
  List.elem_iff

theorem mem_dedupFirstAux (l : List String) :
    ∀ (seen : List String) (x : String),
      x ∈ dedupFirstAux seen l ↔ x ∈ l ∧ x ∉ seen := by
  induction l with
  | nil => simp [dedupFirstAux]
  | cons a rest ih =>
    intro seen x
    rw [dedupFirstAux]
    by_cases h : seen.contains a
    · rw [if_pos h, ih]
      rw [contains_iff_mem] at h
      simp only [List.mem_cons]
      constructor
      · rintro ⟨hr, hs⟩
        exact ⟨Or.inr hr, hs⟩
      · rintro ⟨hax | hr, hs⟩
        · exact absurd (hax ▸ h) hs
        · exact ⟨hr, hs⟩
    · rw [if_neg h, List.mem_cons, ih]
      rw [contains_iff_mem] at h
      simp only [List.mem_cons]
      constructor
      · rintro (rfl | ⟨hr, hs⟩)
        · exact ⟨Or.inl rfl, h⟩
        · exact ⟨Or.inr hr, fun hx => hs (Or.inr hx)⟩
      · rintro ⟨hax | hr, hs⟩
        · exact Or.inl hax
        · by_cases hxa : x = a
          · exact Or.inl hxa
          · exact Or.inr ⟨hr, fun hx => (by
              rcases hx with h1 | h2
              · exact hxa h1
              · exact hs h2)⟩

theorem mem_dedupFirst (x : String) (l : List String) :
    x ∈ dedupFirst l ↔ x ∈ l := by
  rw [dedupFirst, mem_dedupFirstAux]
  simp

theorem nodup_dedupFirstAux (l : List String) :
    ∀ seen : List String, (dedupFirstAux seen l).Nodup := by
  induction l with
  | nil => simp [dedupFirstAux]
  | cons a rest ih =>
    intro seen
    rw [dedupFirstAux]
    by_cases h : seen.contains a
    · rw [if_pos h]
      exact ih seen
    · rw [if_neg h, List.nodup_cons]
      refine ⟨fun hmem => ?_, ih (a :: seen)⟩
      rw [mem_dedupFirstAux] at hmem
      exact hmem.2 (List.mem_cons_self _ _)

theorem nodup_dedupFirst (l : List String) : (dedupFirst l).Nodup :=
  nodup_dedupFirstAux l []

theorem mem_drawWithoutReplacement (s k : Nat) (pool : List Nat) :
    ∀ x ∈ drawWithoutReplacement s k pool, x ∈ pool := by
  induction s, k, pool using drawWithoutReplacement.induct with
  | case1 => simp [drawWithoutReplacement]
  | case2 => simp [drawWithoutReplacement]
  | case3 s k a pool ih =>
    intro y hmem
    rw [drawWithoutReplacement, List.mem_cons] at hmem
    rcases hmem with h | h
    · have hlt : s % (a :: pool).length < (a :: pool).length :=
        Nat.mod_lt _ (by simp)
      rw [h, List.getD_eq_getElem _ _ hlt]
      exact List.getElem_mem hlt
    · exact (List.erase_sublist _ _).subset (ih y h)

theorem nodup_drawWithoutReplacement (s k : Nat) (pool : List Nat) :
    pool.Nodup → (drawWithoutReplacement s k pool).Nodup := by
  induction s, k, pool using drawWithoutReplacement.induct with
  | case1 => intro h; simp [drawWithoutReplacement]
  | case2 => intro h; simp [drawWithoutReplacement]
  | case3 s k a pool ih =>
    intro hnd
    rw [drawWithoutReplacement, List.nodup_cons]
    refine ⟨fun hmem => ?_, ih (hnd.erase _)⟩
    have hx := mem_drawWithoutReplacement _ _ _ _ hmem
    rw [hnd.mem_erase_iff] at hx
    exact hx.1 rfl

theorem length_drawWithoutReplacement (s k : Nat) (pool : List Nat) :
    (drawWithoutReplacement s k pool).length = min k pool.length := by
  induction s, k, pool using drawWithoutReplacement.induct with
  | case1 => simp [drawWithoutReplacement]
  | case2 => simp [drawWithoutReplacement]
  | case3 s k a pool ih =>
    have hlt : s % (a :: pool).length < (a :: pool).length :=
      Nat.mod_lt _ (by simp)
    have hxmem : (a :: pool).getD (s % (a :: pool).length) 0 ∈ a :: pool := by
      rw [List.getD_eq_getElem _ _ hlt]
      exact List.getElem_mem hlt
    rw [drawWithoutReplacement, List.length_cons, ih,
      List.length_erase_of_mem hxmem, List.length_cons]
    omega

theorem nodup_map_getD (l : List String) (idxs : List Nat) (d : String)
    (hl : l.Nodup) (hidxs : idxs.Nodup) (hb : ∀ i ∈ idxs, i < l.length) :
    (idxs.map (fun i => l.getD i d)).Nodup := by
  induction idxs with
  | nil => simp
  | cons i rest ih =>
    rw [List.map_cons, List.nodup_cons]
    rw [List.nodup_cons] at hidxs
    refine ⟨fun hmem => ?_, ih hidxs.2 (fun j hj => hb j (List.mem_cons_of_mem _ hj))⟩
    rw [List.mem_map] at hmem
    obtain ⟨j, hjmem, hj⟩ := hmem
    have hi : i < l.length := hb i (List.mem_cons_self _ _)
    have hjl : j < l.length := hb j (List.mem_cons_of_mem _ hjmem)
    rw [List.getD_eq_getElem _ _ hjl, List.getD_eq_getElem _ _ hi] at hj
    exact hidxs.1 ((hl.getElem_inj_iff.mp hj) ▸ hjmem)

theorem flatten_chunksOf {C : Nat} (hC : 0 < C) (l : List α) :
    (chunksOf C l).flatten = l := by
  induction l using chunksOf.induct C with
  | case1 x h0 => omega
  | case2 hne => simp [chunksOf, hne]
  | case3 hne a rest ih =>
    rw [chunksOf]
    simp only [hne, dite_false, List.flatten_cons, ih, List.take_append_drop]

theorem compactOutput_eq_map {C : Nat} (hC : 0 < C) (raw : List RawReview) :
    compactOutput C raw = raw.map projectReview := by
  rw [compactOutput, ← List.map_flatten, flatten_chunksOf hC]

theorem metaStream_abort (C : Nat) (sampleAsins : List String)
    (goods : List RawMeta) (rest : List MetaLine) (pending : List MetaRow) :
    metaStream C sampleAsins (goods.map MetaLine.ok ++ MetaLine.malformed :: rest) pending
      = ((metaStream C sampleAsins (goods.map MetaLine.ok) pending).1, true) := by
  induction goods generalizing pending with
  | nil => simp [metaStream]
  | cons g goods ih =>
    simp only [List.map_cons, List.cons_append, metaStream]
    by_cases h : (pending ++ [popMeta g]).length = C
    · simp only [h, if_true, List.append_eq, ih]
    · simp only [h, if_false, List.append_eq, ih]

theorem mem_uniqueUsers_of_mem_userCohort {seed N : Nat}
    {corpus : List Review} {cohort : List String} {u : String}
    (hc : userCohort seed N corpus = some cohort) (hu : u ∈ cohort) :
    u ∈ uniqueUsers corpus := by
  rw [userCohort, npChoice] at hc
  by_cases hlt : (uniqueUsers corpus).length < N
  · simp [hlt] at hc
  · simp only [hlt, if_false, Option.map_some', Option.some.injEq] at hc
    rw [← hc] at hu
    rw [List.mem_map] at hu
    obtain ⟨i, himem, hieq⟩ := hu
    have hir : i ∈ List.range (uniqueUsers corpus).length :=
      mem_drawWithoutReplacement _ _ _ i himem
    rw [List.mem_range] at hir
    rw [← hieq, List.getD_eq_getElem _ _ hir]
    exact List.getElem_mem hir

/-! Concrete inputs used by witnesses and counterexamples. -/

/-- A four-row compacted corpus over three distinct users (`u1`, `u2`,
`u3`), used by the witnesses. -/
def wCorpus : List Review :=
  [⟨"u1", "p1", 5⟩, ⟨"u2", "p2", 4⟩, ⟨"u1", "p3", 3⟩, ⟨"u3", "p1", 2⟩]

/-- The cohort the model sampler draws from `wCorpus` with seed 47 and
sample size 2. -/
def wCohort : List String := ["u3", "u1"]

/-- The sampled review artifact for `wCorpus`, seed 47, sample size 2:
the rows of `wCorpus` whose user is in `wCohort`, in original order. -/
def wArt : List Review :=
  [⟨"u1", "p1", 5⟩, ⟨"u1", "p3", 3⟩, ⟨"u3", "p1", 2⟩]

/-! Claim theorems. -/

/-- C1: for a fixed seed (47) and a fixed compacted review corpus, any two
runs of the sampling stage return the same result, cohort included: the
stage is a pure function of the seed and the corpus, because the global
generator is seeded immediately before the single draw and no other code
consumes the stream. -/
theorem userSampler_deterministic (N : Nat) (corpus : List Review)
    (r₁ r₂ : Except SampleError (List String × List Review))
    (h₁ : r₁ = userSampleStage 47 N corpus)
    (h₂ : r₂ = userSampleStage 47 N corpus) : r₁ = r₂ :=
  h₁.trans h₂.symm

/-- Witness for C1 at a concrete corpus: the first run's concrete result
coincides with a repeated run. -/
theorem userSampler_deterministic_witness :
    (Except.ok (wCohort, wArt) : Except SampleError (List String × List Review))
      = userSampleStage 47 2 wCorpus :=
  userSampler_deterministic 2 wCorpus _ _ rfl rfl

/-- C2: when the distinct-user population is at least `N` the sampler
returns a cohort of exactly `N` distinct users drawn from that population,
and when the population is smaller than `N` the stage fails with the
insufficient-population error (NumPy's `ValueError`) before any artifact
is produced — the error result carries no sampled-review artifact. -/
theorem userSampler_size_and_abort (seed N : Nat) (corpus : List Review) :
    (N ≤ (uniqueUsers corpus).length →
      ∃ cohort art, userSampleStage seed N corpus = Except.ok (cohort, art) ∧
        cohort.length = N ∧ cohort.Nodup ∧
        ∀ u ∈ cohort, u ∈ uniqueUsers corpus) ∧
    ((uniqueUsers corpus).length < N →
      userSampleStage seed N corpus
        = Except.error SampleError.insufficientPopulation) := by
  constructor
  · intro hN
    have hnlt : ¬ (uniqueUsers corpus).length < N := not_lt.mpr hN
    have hch : userCohort seed N corpus = some
        ((drawWithoutReplacement seed N
            (List.range (uniqueUsers corpus).length)).map
          (fun i => (uniqueUsers corpus).getD i "")) := by
      rw [userCohort, npChoice, if_neg hnlt, Option.map_some']
    set c : List String := (drawWithoutReplacement seed N
        (List.range (uniqueUsers corpus).length)).map
      (fun i => (uniqueUsers corpus).getD i "")
    refine ⟨c, corpus.filter (fun r => c.contains r.reviewerID),
      ?_, ?_, ?_, ?_⟩
    · rw [userSampleStage, hch]
    · rw [List.length_map, length_drawWithoutReplacement, List.length_range]
      omega
    · apply nodup_map_getD
      · exact nodup_dedupFirst _
      · exact nodup_drawWithoutReplacement _ _ _ (List.nodup_range _)
      · intro i hi
        have hmem := mem_drawWithoutReplacement _ _ _ i hi
        rw [List.mem_range] at hmem
        exact hmem
    · intro u hu
      exact mem_uniqueUsers_of_mem_userCohort hch hu
  · intro hlt
    have hnone : userCohort seed N corpus = none := by
      rw [userCohort, npChoice, if_pos hlt]
      rfl
    rw [userSampleStage, hnone]

/-- Witness for C2, both branches: a population of 3 distinct users
against sample sizes 2 (success, exactly 2 distinct users) and 5
(failure before any artifact). -/
theorem userSampler_size_and_abort_witness :
    (2 ≤ (uniqueUsers wCorpus).length ∧
      ∃ cohort art, userSampleStage 47 2 wCorpus = Except.ok (cohort, art) ∧
        cohort.length = 2 ∧ cohort.Nodup ∧
        ∀ u ∈ cohort, u ∈ uniqueUsers wCorpus) ∧
    ((uniqueUsers wCorpus).length < 5 ∧
      userSampleStage 47 5 wCorpus
        = Except.error SampleError.insufficientPopulation) :=
  ⟨⟨by decide, (userSampler_size_and_abort 47 2 wCorpus).1 (by decide)⟩,
   ⟨by decide, (userSampler_size_and_abort 47 5 wCorpus).2 (by decide)⟩⟩

/-- C3: every row of the sampled review artifact belongs to a cohort
user; the retained rows form a sublist of the compacted corpus (original
relative order); and the distinct users occurring in the artifact are
exactly the cohort — in particular every sampled user keeps at least one
row, because the cohort is drawn from the corpus's own distinct users. -/
theorem sampledReviews_cohort_consistency (seed N : Nat)
    (corpus : List Review) (cohort : List String) (art : List Review)
    (h : userSampleStage seed N corpus = Except.ok (cohort, art)) :
    (∀ r ∈ art, r.reviewerID ∈ cohort) ∧ art.Sublist corpus ∧
      (∀ u : String, (∃ r ∈ art, r.reviewerID = u) ↔ u ∈ cohort) := by
  rw [userSampleStage] at h
  cases hc : userCohort seed N corpus with
  | none => rw [hc] at h; exact absurd h (by simp)
  | some c =>
    rw [hc] at h
    simp only [Except.ok.injEq, Prod.mk.injEq] at h
    obtain ⟨hco, hart⟩ := h
    subst hco
    refine ⟨?_, ?_, ?_⟩
    · intro r hr
      rw [← hart, List.mem_filter] at hr
      exact (contains_iff_mem _ _).mp hr.2
    · rw [← hart]
      exact List.filter_sublist _
    · intro u
      constructor
      · rintro ⟨r, hr, rfl⟩
        rw [← hart, List.mem_filter] at hr
        exact (contains_iff_mem _ _).mp hr.2
      · intro hu
        have humem : u ∈ uniqueUsers corpus :=
          mem_uniqueUsers_of_mem_userCohort hc hu
        rw [uniqueUsers, mem_dedupFirst, List.mem_map] at humem
        obtain ⟨r, hrmem, hrid⟩ := humem
        refine ⟨r, ?_, hrid⟩
        rw [← hart, List.mem_filter]
        exact ⟨hrmem, (contains_iff_mem _ _).mpr (hrid ▸ hu)⟩

/-- Witness for C3 at a concrete successful run of the sampler. -/
theorem sampledReviews_cohort_consistency_witness :
    (∀ r ∈ wArt, r.reviewerID ∈ wCohort) ∧ wArt.Sublist wCorpus ∧
      (∀ u : String, (∃ r ∈ wArt, r.reviewerID = u) ↔ u ∈ wCohort) :=
  sampledReviews_cohort_consistency 47 2 wCorpus wCohort wArt rfl

/-- A parseable metadata record whose `asin` (`"A"`) occurs among the
sampled reviews' asins used in the metadata evaluations. -/
def rTail : RawMeta :=
  ⟨"A", some "c", some "t", none, none, none, none, none, none⟩

/-- C4: refuted by the code — the join loop flushes a buffer only when its
length reaches `CHUNK_SIZE` (the notebook's 200000) and has no post-loop
flush, so a matching record left in the trailing partial chunk is never
appended, although its `asin` is in the sampled set.  This theorem
evaluates the loop at such a failing input: one parseable matching record
and the configured chunk size. -/
theorem metadataJoin_drops_trailing_chunk :
    rTail.asin ∈ ["A"] ∧ metaOutput 200000 ["A"] [MetaLine.ok rTail] = [] := by
  constructor
  · decide
  · rfl

/-- The metadata record of the spec's concrete scenario with null
`categories` and title `"T"`. -/
def mX : MetaRow := ⟨"X", none, some "T", none, none⟩

/-- The metadata record of the spec's concrete scenario with categories
present and title `"T2"`. -/
def mY : MetaRow := ⟨"Y", some "[[A]]", some "T2", none, none⟩

/-- C5: after QualityFilter every remaining record has both `categories`
and `title` present; every record with both present is retained and every
record lacking either is dropped — including the spec's two concrete
scenario records. -/
theorem qualityFilter_text_presence :
    (∀ (m : List MetaRow) (r : MetaRow), r ∈ qualityFilter m →
        r.categories.isSome = true ∧ r.title.isSome = true) ∧
    (∀ (m : List MetaRow) (r : MetaRow), r ∈ m →
        r.categories.isSome = true → r.title.isSome = true →
        r ∈ qualityFilter m) ∧
    qualityFilter [mX] = [] ∧ qualityFilter [mY] = [mY] := by
  refine ⟨?_, ?_, by decide, by decide⟩
  · intro m r hr
    rw [qualityFilter, List.mem_filter] at hr
    exact Bool.and_eq_true_iff.mp hr.2
  · intro m r hm hc ht
    rw [qualityFilter, List.mem_filter]
    refine ⟨hm, ?_⟩
    rw [hc, ht]
    rfl

/-- Witness for C5 at the spec's scenario records. -/
theorem qualityFilter_text_presence_witness :
    (mY.categories.isSome = true ∧ mY.title.isSome = true) ∧
      mY ∈ qualityFilter [mX, mY] :=
  ⟨qualityFilter_text_presence.1 [mX, mY] mY (by decide),
   qualityFilter_text_presence.2.1 [mX, mY] mY (by decide) (by decide)
     (by decide)⟩

/-- A concrete raw review used by the chunk-size witness. -/
def wRaw : RawReview :=
  ⟨"u1", "p1", 5, "name", "help", "text", "sum", "utime", "rtime"⟩

/-- C6: refuted by the code for the metadata artifact.  The compact
reviews artifact is chunk-size independent (pandas yields the trailing
partial chunk, so the chunked projection equals the unchunked one, and the
sampled artifact is a function of it), but the metadata loop drops a
trailing partial buffer, so the metadata extract differs between chunk
sizes 1 and 2 on a one-record corpus whose record matches the sampled
set. -/
theorem chunkSize_changes_metadata_output :
    (∀ (C₁ C₂ : Nat) (raw : List RawReview), 0 < C₁ → 0 < C₂ →
        compactOutput C₁ raw = compactOutput C₂ raw) ∧
    metaOutput 1 ["A"] [MetaLine.ok rTail]
      ≠ metaOutput 2 ["A"] [MetaLine.ok rTail] := by
  constructor
  · intro C₁ C₂ raw h₁ h₂
    rw [compactOutput_eq_map h₁, compactOutput_eq_map h₂]
  · decide

/-- Witness for C6's compact-reviews part at concrete chunk sizes. -/
theorem chunkSize_changes_metadata_output_witness :
    compactOutput 1 [wRaw] = compactOutput 3 [wRaw] :=
  chunkSize_changes_metadata_output.1 1 3 [wRaw] (by decide) (by decide)

/-- C7: a stage guarded by `os.path.exists` leaves an existing artifact
unchanged (compaction and sampling are skipped entirely); a second
MetadataJoinFilter run against unchanged inputs reproduces the first
run's artifact (its guard skips, returning exactly the first output); and
QualityFilter re-applied to its own output (the overwritten artifact) is
byte-identical, since the dropna filter is idempotent. -/
theorem stage_skip_and_rerun :
    (∀ (a : List Review) (C : Nat) (raw : List RawReview),
        compactorRun (some a) C raw = a) ∧
    (∀ (a : List Review) (seed N : Nat) (corpus : List Review),
        sampleRun (some a) seed N corpus = Except.ok a) ∧
    (∀ (C : Nat) (sampleAsins : List String) (lines : List MetaLine),
        metaRun (some (metaRun none C sampleAsins lines)) C sampleAsins lines
          = metaRun none C sampleAsins lines) ∧
    (∀ m : List MetaRow, qualityFilter (qualityFilter m) = qualityFilter m) := by
  refine ⟨fun a C raw => rfl, fun a seed N corpus => rfl,
    fun C s lines => rfl, fun m => ?_⟩
  rw [qualityFilter, qualityFilter, List.filter_filter]
  congr 1
  funext r
  rw [Bool.and_self]

/-- C8: a malformed metadata line makes the loop abort (fail fast), and
the output flushed up to that point is exactly the output of the
well-formed prior lines — the chunks already appended are not touched by
the failure. -/
theorem metadataJoin_failfast (C : Nat) (sampleAsins : List String)
    (goods : List RawMeta) (rest : List MetaLine) :
    metaStream C sampleAsins
        (goods.map MetaLine.ok ++ MetaLine.malformed :: rest) []
      = ((metaStream C sampleAsins (goods.map MetaLine.ok) []).1, true) :=
  metaStream_abort C sampleAsins goods rest []

/-- The five metadata columns kept by the projection. -/
def cols5 : List String :=
  ["asin", "categories", "title", "description", "related"]

/-- Counterexample to C9 as stated: a chunk in which a listed field
(`title`, among others) occurs in no record makes the column selection
`chunk[cols]` raise a `KeyError` (modelled by `none`) instead of yielding
an absent value, so the projection is not error-free on every input. -/
theorem fieldProjector_chunk_keyerror :
    chunkSelect cols5 [[("asin", PVal.s "X")]] = none := by
  decide

/-- C9 (amended): per-record projection is pure and total — `line.pop`
with a default never errors and removes exactly the popped key — and
whenever every listed field occurs in at least one record of the chunk,
the column selection succeeds and returns records with exactly the listed
fields in canonical order, a record's missing field appearing as the
absent value `NaN`; only a chunk in which some listed field occurs in no
record raises a `KeyError`. -/
theorem fieldProjector_amended (cols : List String) (chunk : List DynRec)
    (k : String) (r : DynRec) (c : String)
    (hcols : ∀ c2 ∈ cols, ∃ rec ∈ chunk, recHasKey rec c2 = true)
    (hmiss : recHasKey r c = false) :
    chunkSelect cols chunk
      = some (chunk.map (fun rec => cols.map (fun c2 => (c2, recGet rec c2)))) ∧
    (∀ o ∈ chunk.map (fun rec => cols.map (fun c2 => (c2, recGet rec c2))),
        o.map Prod.fst = cols) ∧
    (∀ p ∈ recPop k r, p.1 ≠ k) ∧
    (∀ p ∈ r, p.1 ≠ k → p ∈ recPop k r) ∧
    recGet r c = PVal.nan := by
  refine ⟨?_, ?_, ?_, ?_, ?_⟩
  · rw [chunkSelect, if_pos]
    rw [List.all_eq_true]
    intro c2 hc2
    rw [List.any_eq_true]
    obtain ⟨rec, hrec, hkey⟩ := hcols c2 hc2
    exact ⟨rec, hrec, hkey⟩
  · intro o ho
    rw [List.mem_map] at ho
    obtain ⟨rec, hrec, rfl⟩ := ho
    simp [Function.comp_def]
  · intro p hp
    rw [recPop, List.mem_filter, decide_eq_true_iff] at hp
    exact hp.2
  · intro p hp hne
    rw [recPop, List.mem_filter]
    exact ⟨hp, by simpa using hne⟩
  · rw [recGet]
    have hfind : r.find? (fun p => p.1 == c) = none := by
      rw [List.find?_eq_none]
      intro p hp hbeq
      have hany : r.any (fun q => q.1 == c) = true :=
        List.any_eq_true.mpr ⟨p, hp, hbeq⟩
      rw [recHasKey] at hmiss
      rw [hmiss] at hany
      exact Bool.false_ne_true hany
    rw [hfind]

/-- A dict record carrying all five retained keys. -/
def wFull : DynRec :=
  [("asin", PVal.s "Y"), ("categories", PVal.s "[[A]]"),
   ("title", PVal.s "T2"), ("description", PVal.nan),
   ("related", PVal.nan)]

/-- A dict record missing the `title`, `description` and `related`
keys. -/
def wPartial : DynRec :=
  [("asin", PVal.s "X"), ("categories", PVal.s "[[B]]")]

/-- Witness for the amended C9 at a concrete chunk in which every listed
column occurs in some record while one record misses `title`. -/
theorem fieldProjector_amended_witness :
    chunkSelect cols5 [wFull, wPartial]
      = some ([wFull, wPartial].map
          (fun rec => cols5.map (fun c2 => (c2, recGet rec c2)))) ∧
    (∀ o ∈ [wFull, wPartial].map
        (fun rec => cols5.map (fun c2 => (c2, recGet rec c2))),
        o.map Prod.fst = cols5) ∧
    (∀ p ∈ recPop "imUrl" wPartial, p.1 ≠ "imUrl") ∧
    (∀ p ∈ wPartial, p.1 ≠ "imUrl" → p ∈ recPop "imUrl" wPartial) ∧
    recGet wPartial "title" = PVal.nan :=
  fieldProjector_amended cols5 [wFull, wPartial] "imUrl" wPartial "title"
    (by decide) (by decide)

/-- A two-user corpus with `u` appearing before `v`. -/
def cOrderA : List Review := [⟨"u", "pa", 1⟩, ⟨"v", "pb", 2⟩]

/-- The same two reviews with the first appearances swapped: the same set
of distinct users in a different first-appearance order. -/
def cOrderB : List Review := [⟨"v", "pb", 2⟩, ⟨"u", "pa", 1⟩]

/-- C10: the cohort is a function of the seed and the distinct-user
sequence in first-appearance order — the sampler draws integer positions
into that sequence — so equal distinct-user sequences force equal
cohorts, while two corpora with the same set of distinct users in a
different first-appearance order can yield different cohorts under the
same seed (47). -/
theorem cohort_function_of_first_appearance :
    (∀ (seed N : Nat) (c₁ c₂ : List Review),
        uniqueUsers c₁ = uniqueUsers c₂ →
        userCohort seed N c₁ = userCohort seed N c₂) ∧
    ((uniqueUsers cOrderA).Perm (uniqueUsers cOrderB) ∧
      uniqueUsers cOrderA ≠ uniqueUsers cOrderB ∧
      userCohort 47 1 cOrderA ≠ userCohort 47 1 cOrderB) := by
  refine ⟨?_, by decide, by decide, by decide⟩
  intro seed N c₁ c₂ h
  rw [userCohort, userCohort, h]

/-- Witness for C10's functional part: appending a duplicate-user review
leaves the distinct-user sequence, hence the cohort, unchanged. -/
theorem cohort_function_of_first_appearance_witness :
    userCohort 47 1 cOrderA = userCohort 47 1 (cOrderA ++ [⟨"u", "pc", 3⟩]) :=
  cohort_function_of_first_appearance.1 47 1 cOrderA
    (cOrderA ++ [⟨"u", "pc", 3⟩]) (by decide)

end Preproc
